import Mathlib

/-!
Verification development for the FinWise statement-analysis core.

The definitions below are a shallow embedding of the TypeScript source:

* `src/unnamed/part_000` — keyword classifier (`categorizeWithKeywords`),
  remote classifier adapter (`categorizeWithLLM`, `processBatchWithLLM`);
* `src/unnamed/part_002` — row-to-transaction mapper
  (`processDataWithMapping`) and date normalizer (`formatDate`);
* `src/unnamed/part_003` — category aggregator (`getCategoryStats`).

JavaScript strings are modelled as Lean `String` (lists of characters);
JavaScript numbers are modelled as exact rationals `ℚ` (none of the
verified properties depends on floating-point rounding; where a float
operation can produce a non-finite value this is modelled explicitly with
`Option`).  Code that can throw is modelled in `Except Unit`.
-/

deriving instance DecidableEq for Except

namespace FinWise

/-! ## JavaScript string primitives

Character-list implementations of the JS string operations used by the
source, written so that they reduce in the kernel. -/

/-- Model of `String.prototype.toLowerCase` (ASCII is all the source uses). -/
def jsToLower (s : String) : String := ⟨s.data.map Char.toLower⟩

/-- Splits a character list at every separator character, keeping empty
pieces, as JS `String.prototype.split` does with a character class. -/
def splitListChar (p : Char → Bool) : List Char → List (List Char)
  | [] => [[]]
  | c :: cs =>
    if p c then [] :: splitListChar p cs
    else
      match splitListChar p cs with
      | [] => [[c]]
      | g :: gs => (c :: g) :: gs

/-- Model of JS `s.split(sep)` for a single-character / character-class
separator: `"a//b"` gives `["a", "", "b"]` and `""` gives `[""]`. -/
def jsSplit (s : String) (p : Char → Bool) : List String :=
  (splitListChar p s.data).map (fun g => ⟨g⟩)

/-- Model of JS `String.prototype.trim` (leading and trailing whitespace). -/
def jsTrim (s : String) : String :=
  ⟨((s.data.dropWhile Char.isWhitespace).reverse.dropWhile Char.isWhitespace).reverse⟩

/-- Whether `sub` occurs as a contiguous run inside `hay`. -/
def listContainsRun (sub : List Char) : List Char → Bool
  | [] => sub.isEmpty
  | c :: cs => sub.isPrefixOf (c :: cs) || listContainsRun sub cs

/-- Model of JS `hay.includes(sub)` (substring test). -/
def jsIncludes (hay sub : String) : Bool :=
  listContainsRun sub.data hay.data

/-- Numeric value of a list of decimal digit characters. -/
def natOfDigits (ds : List Char) : ℕ :=
  ds.foldl (fun n c => n * 10 + (c.toNat - 48)) 0

/-- Model of JS `Number.parseInt(s)` (radix 10): skip leading whitespace,
optional sign, then the longest prefix of decimal digits; `none` models
`NaN` when no digit is found.  The hexadecimal `0x` form accepted by JS is
not modelled (no caller in the source feeds it such input deliberately). -/
def parseIntJS (s : String) : Option ℤ :=
  let cs := s.data.dropWhile Char.isWhitespace
  let signed : ℤ × List Char :=
    match cs with
    | '-' :: r => (-1, r)
    | '+' :: r => (1, r)
    | r => (1, r)
  let ds := signed.2.takeWhile Char.isDigit
  if ds.isEmpty then none else some (signed.1 * (natOfDigits ds : ℤ))

/-- Model of JS `Number.parseFloat(s)`: skip leading whitespace, optional
sign, integer digits, optionally a dot and fraction digits; `none` models
`NaN` when no digit is found.  Exponent forms never reach this function in
the source (the caller first strips every character except digits, `.`
and `-`). -/
def parseFloatJS (s : String) : Option ℚ :=
  let cs := s.data.dropWhile Char.isWhitespace
  let signed : ℚ × List Char :=
    match cs with
    | '-' :: r => (-1, r)
    | '+' :: r => (1, r)
    | r => (1, r)
  let intDs := signed.2.takeWhile Char.isDigit
  let rest := signed.2.dropWhile Char.isDigit
  match rest with
  | '.' :: r2 =>
    let fracDs := r2.takeWhile Char.isDigit
    if intDs.isEmpty && fracDs.isEmpty then none
    else some (signed.1 * ((natOfDigits intDs : ℚ) +
      (natOfDigits fracDs : ℚ) / ((10 : ℚ) ^ fracDs.length)))
  | _ => if intDs.isEmpty then none else some (signed.1 * (natOfDigits intDs : ℚ))

/-- Decimal digit character for `n mod 10`. -/
def digitChar (n : ℤ) : Char := Char.ofNat (48 + (n.emod 10).toNat)

/-- Two-digit zero-padded decimal rendering (for `n` in `0..99`). -/
def pad2 (n : ℤ) : List Char := [digitChar (n.ediv 10), digitChar n]

/-- Four-digit zero-padded decimal rendering (for `n` in `0..9999`). -/
def pad4 (n : ℤ) : List Char :=
  [digitChar (n.ediv 1000), digitChar (n.ediv 100), digitChar (n.ediv 10), digitChar n]

/-- Six-digit zero-padded decimal rendering (for `n` in `0..999999`). -/
def pad6 (n : ℤ) : List Char :=
  [digitChar (n.ediv 100000), digitChar (n.ediv 10000), digitChar (n.ediv 1000),
   digitChar (n.ediv 100), digitChar (n.ediv 10), digitChar n]

/-- Model of JS `Number.prototype.toFixed(2)` for a non-negative value:
round to the nearest hundredth (ties up) and render with two decimals. -/
def toFixed2 (q : ℚ) : String :=
  let n : ℤ := ⌊q * 100 + 1 / 2⌋
  toString (n.ediv 100) ++ "." ++ ⟨pad2 (n.emod 100)⟩

/-! ## Transactions -/

/-- Embedding of the source's transaction record
(`{ id, date, description, amount, category }`). -/
structure Transaction where
  id : String
  date : String
  description : String
  amount : ℚ
  category : String
deriving DecidableEq, Repr

/-! ## Keyword classifier (src/unnamed/part_000, lines 501-538) -/

/-- Embedding of the `categories` rule table of `categorizeWithKeywords`,
reproduced verbatim in the source's insertion order (which is the
iteration order of `Object.entries` for these string keys). -/
def keywordCategories : List (String × List String) :=
  [("Shopping", ["amazon", "walmart", "target", "ebay", "etsy", "bestbuy", "purchase", "shop"]),
   ("Food & Dining",
    ["restaurant", "cafe", "coffee", "starbucks", "mcdonald", "burger", "pizza", "food",
     "dining", "chipotle", "subway", "taco", "wendy"]),
   ("Groceries",
    ["grocery", "supermarket", "market", "trader", "whole foods", "safeway", "kroger",
     "aldi", "publix", "food"]),
   ("Transportation",
    ["uber", "lyft", "taxi", "cab", "transit", "metro", "subway", "bus", "train", "transport"]),
   ("Travel",
    ["hotel", "airbnb", "airline", "flight", "booking", "expedia", "travel", "vacation", "trip"]),
   ("Entertainment",
    ["netflix", "hulu", "spotify", "disney", "movie", "theater", "concert", "ticket",
     "entertainment"]),
   ("Health & Fitness",
    ["gym", "fitness", "workout", "exercise", "health", "medical", "doctor", "pharmacy",
     "drug", "cvs", "walgreens"]),
   ("Bills & Utilities",
    ["bill", "utility", "electric", "water", "gas", "internet", "phone", "cable", "service"]),
   ("Education",
    ["tuition", "school", "college", "university", "course", "class", "education", "book",
     "textbook"]),
   ("Personal Care", ["salon", "spa", "haircut", "beauty", "cosmetic", "personal care"]),
   ("Home",
    ["furniture", "home depot", "lowes", "ikea", "home", "house", "apartment", "rent",
     "mortgage"]),
   ("Insurance", ["insurance", "premium", "coverage", "policy"]),
   ("Investments",
    ["investment", "stock", "bond", "mutual fund", "etf", "brokerage", "dividend", "capital"]),
   ("Income",
    ["salary", "paycheck", "deposit", "income", "revenue", "wage", "earnings", "commission"]),
   ("Transfers",
    ["transfer", "zelle", "venmo", "paypal", "cash app", "wire", "ach", "direct deposit"]),
   ("Subscriptions", ["subscription", "membership", "recurring", "monthly", "annual"])]

/-- Whether the (already lower-cased) description matches some keyword of a
table entry — the inner loop of `categorizeWithKeywords`. -/
def matchesEntry (desc : String) (entry : String × List String) : Bool :=
  entry.2.any (fun k => jsIncludes desc k)

/-- Embedding of `categorizeWithKeywords` (part_000 lines 501-538): lower-case
the description, return the first table entry one of whose keywords occurs
in it, else `"Uncategorized"`. -/
def categorizeWithKeywords (description : String) : String :=
  match keywordCategories.find? (matchesEntry (jsToLower description)) with
  | some entry => entry.1
  | none => "Uncategorized"

/-! ## Remote classifier adapter (src/unnamed/part_000, lines 544-642) -/

/-- Embedding of the category list enumerated in the remote classifier's
prompt (part_000 lines 576-593), in the order written there. -/
def promptCategories : List String :=
  ["Shopping", "Food & Dining", "Groceries", "Transportation", "Travel", "Entertainment",
   "Health & Fitness", "Bills & Utilities", "Education", "Personal Care", "Home",
   "Insurance", "Investments", "Income", "Transfers", "Subscriptions", "Miscellaneous"]

/-- Embedding of the `transactionsText` rendering of `processBatchWithLLM`
(part_000 lines 567-569): one line per transaction, joined by newlines. -/
def transactionsText (batch : List Transaction) : String :=
  String.intercalate "\n"
    (batch.map (fun t => "Transaction: " ++ t.description ++ ", Amount: " ++ toFixed2 |t.amount|))

/-- Embedding of the prompt template literal of `processBatchWithLLM`
(part_000 lines 571-595). -/
def buildPrompt (batch : List Transaction) : String :=
  "\nYou are a financial transaction categorizer. Please categorize each transaction into one of the following categories:\n"
  ++ String.intercalate "\n" (promptCategories.map (fun c => "- " ++ c))
  ++ "\n\nFor each transaction, respond with ONLY the category name, one per line, in the same order as the transactions.\n\nHere are the transactions:\n"
  ++ transactionsText batch ++ "\n"

/-- Outcome of one remote `fetch("/api/chat", ...)` call as observed by
`processBatchWithLLM`: the call (or the subsequent body parsing) threw, or
the response had `ok === false`, or it succeeded with the assistant message
content extracted from the body. -/
inductive RemoteOutcome where
  | thrown : RemoteOutcome
  | respNotOk : ℕ → RemoteOutcome
  | success : String → RemoteOutcome
deriving DecidableEq

/-- Embedding of the response post-processing of `processBatchWithLLM`
(part_000 lines 613-616): split on newlines, discard lines that are blank
after trimming, then trim the remaining lines. -/
def parseCategories (content : String) : List String :=
  ((jsSplit content (fun c => c == '\n')).filter (fun line => !(jsTrim line == ""))).map jsTrim

/-- The keyword fallback applied to one transaction — the body of each of
the three `batch.map(...)` fallback sites of `processBatchWithLLM`. -/
def keywordFallback (t : Transaction) : Transaction :=
  { t with category := categorizeWithKeywords t.description }

/-- Embedding of `processBatchWithLLM` (part_000 lines 566-642).  The remote
boundary is the function argument `remote`, mapping the prompt to the
observed outcome.  A thrown error (from `fetch`, the `!response.ok` branch's
own `throw`, or body-shape access) lands in the `catch`, which applies the
keyword fallback to the whole batch; the same happens when the parsed line
count differs from the batch size.  Otherwise line `i` (with the falsy
`|| "Miscellaneous"` default) becomes the category of transaction `i`. -/
def processBatchWithLLM (remote : String → RemoteOutcome) (batch : List Transaction) :
    List Transaction :=
  match remote (buildPrompt batch) with
  | .thrown => batch.map keywordFallback
  | .respNotOk _ => batch.map keywordFallback
  | .success content =>
    let categories := parseCategories content
    if categories.length ≠ batch.length then
      batch.map keywordFallback
    else
      batch.mapIdx (fun index t =>
        { t with category :=
            let c := categories.getD index ""
            if c = "" then "Miscellaneous" else c })

/-- Embedding of the batching loop of `categorizeWithLLM` (part_000 lines
548-553): successive slices of length 10. -/
def chunk10 (l : List Transaction) : List (List Transaction) :=
  if l = [] then []
  else l.take 10 :: chunk10 (l.drop 10)
termination_by l.length
decreasing_by
  rename_i h
  have : l.length ≠ 0 := fun hn => h (List.eq_nil_of_length_eq_zero hn)
  simp [List.length_drop]
  omega

/-- Embedding of `categorizeWithLLM` (part_000 lines 544-561): process each
batch (the `Promise.all` only awaits the per-batch results, whose values
depend only on their own batch) and flatten in batch order. -/
def categorizeWithLLM (remote : String → RemoteOutcome) (transactions : List Transaction) :
    List Transaction :=
  ((chunk10 transactions).map (processBatchWithLLM remote)).flatten

/-! ## Date normalizer (src/unnamed/part_002, lines 389-429)

Calendar arithmetic carried out by the JS `Date` object is modelled with
exact civil-calendar integer algorithms (proleptic Gregorian, as ECMA-262
specifies), with the host time zone taken to be UTC — the construction
`new Date(y, m, d)` builds a local-time date and `toISOString()` converts
to UTC, so in host zones east of UTC the code actually renders the
*previous* day; the model fixes the zone to UTC (the behavior on a UTC
host, e.g. a typical server or CI environment). -/

/-- Day number (days since 1970-01-01) of the civil date `y-m-d` for a
month `m` in `1..12`. -/
def daysFromCivil (y m d : ℤ) : ℤ :=
  let y' := if m ≤ 2 then y - 1 else y
  let era := y'.ediv 400
  let yoe := y' - era * 400
  let mp := if 2 < m then m - 3 else m + 9
  let doy := (153 * mp + 2).ediv 5 + d - 1
  let doe := yoe * 365 + yoe.ediv 4 - yoe.ediv 100 + doy
  era * 146097 + doe - 719468

/-- Civil date `(year, month, day)` of a day number (inverse of
`daysFromCivil`). -/
def civilFromDays (z : ℤ) : ℤ × ℤ × ℤ :=
  let z' := z + 719468
  let era := z'.ediv 146097
  let doe := z'.emod 146097
  let yoe := (doe - doe.ediv 1460 + doe.ediv 36524 - doe.ediv 146096).ediv 365
  let y := yoe + era * 400
  let doy := doe - (365 * yoe + yoe.ediv 4 - yoe.ediv 100)
  let mp := (5 * doy + 2).ediv 153
  let d := doy - (153 * mp + 2).ediv 5 + 1
  let m := if mp < 10 then mp + 3 else mp - 9
  (y + (if m ≤ 2 then 1 else 0), m, d)

/-- Model of the day number produced by `new Date(year, monthIndex, day)`
(ECMA-262 `MakeFullYear` + `MakeDay`): years `0..99` map to `1900..1999`,
the month index is folded into the year with its remainder in `0..11`, and
the day offsets from the first of that month with free roll-over. -/
def jsMakeDay (year monthIndex day : ℤ) : ℤ :=
  let yr := if 0 ≤ year ∧ year ≤ 99 then year + 1900 else year
  let ym := yr + monthIndex.ediv 12
  let mn := monthIndex.emod 12 + 1
  daysFromCivil ym mn 1 + (day - 1)

/-- First ten characters of `Date.prototype.toISOString()` for the given
civil date: `YYYY-MM-DD` for four-digit years, and the first ten characters
of the extended `±YYYYYY-MM-DD…` form otherwise. -/
def isoDatePrefixOfCivil (y m d : ℤ) : String :=
  if 0 ≤ y ∧ y ≤ 9999 then ⟨pad4 y ++ '-' :: (pad2 m ++ '-' :: pad2 d)⟩
  else if 9999 < y then ⟨'+' :: (pad6 y ++ ['-'] ++ pad2 m)⟩
  else ⟨'-' :: (pad6 (-y) ++ ['-'] ++ pad2 m)⟩

/-- Separator class of `dateStr.split(/[/.-]/)`. -/
def dateSep (c : Char) : Bool := c == '/' || c == '.' || c == '-'

/-- The century fix-up of the three-part branch of `formatDate`
(part_002 lines 409-411): `if (year < 100) year += year < 50 ? 2000 : 1900`. -/
def adjustYear (y : ℤ) : ℤ :=
  if y < 100 then (if y < 50 then y + 2000 else y + 1900) else y

/-- Whether a string has exactly the shape `DDDD-DD-DD` (four digits, dash,
two digits, dash, two digits and nothing else): the canonical `YYYY-MM-DD`
rendering. -/
def isCanonicalIsoDate (s : String) : Bool :=
  match s.data with
  | [y1, y2, y3, y4, '-', m1, m2, '-', d1, d2] =>
    y1.isDigit && y2.isDigit && y3.isDigit && y4.isDigit &&
    m1.isDigit && m2.isDigit && d1.isDigit && d2.isDigit
  | _ => false

/-- Test of the regular expression `/^\d{4}-\d{2}-\d{2}/`. -/
def isoShapeTest (s : String) : Bool :=
  match s.data with
  | a :: b :: c :: d :: '-' :: e :: f :: '-' :: g :: h :: _ =>
    a.isDigit && b.isDigit && c.isDigit && d.isDigit &&
    e.isDigit && f.isDigit && g.isDigit && h.isDigit
  | _ => false

/-- Embedding of `formatDate` (part_002 lines 389-429).  `freeParse` is the
engine-defined free-form parse performed by `new Date(dateStr)` in the
final fallback branch, returning the parsed day number or `none` for an
invalid date (that branch is wrapped in `try`/`catch` and guarded by
`isNaN`, so it never throws).  The three-part branch is *not* guarded: when
some part parses to `NaN`, or the constructed time value leaves the
±100 000 000-day `Date` range, `toISOString()` throws a `RangeError` that
propagates out of `formatDate`; this is the `Except.error` case. -/
def formatDate (freeParse : String → Option ℤ) (dateStr : String) : Except Unit String :=
  if dateStr = "" then .ok ""
  else if isoShapeTest dateStr then .ok ⟨dateStr.data.take 10⟩
  else
    match jsSplit dateStr dateSep with
    | [p1, p2, p3] =>
      match parseIntJS p1, parseIntJS p2, parseIntJS p3 with
      | some month, some day, some yearRaw =>
        let z := jsMakeDay (adjustYear yearRaw) (month - 1) day
        if z < -100000000 ∨ 100000000 < z then .error ()
        else
          let c := civilFromDays z
          .ok (isoDatePrefixOfCivil c.1 c.2.1 c.2.2)
      | _, _, _ => .error ()
    | _ => .ok (match freeParse dateStr with
        | some z => let c := civilFromDays z
                    isoDatePrefixOfCivil c.1 c.2.1 c.2.2
        | none => dateStr)

/-! ## Row-to-transaction mapper (src/unnamed/part_002, lines 361-386) -/

/-- A raw cell value: JS strings get the cleaning treatment, numbers pass
through unchanged. -/
inductive CellValue where
  | str : String → CellValue
  | num : ℚ → CellValue
deriving DecidableEq

/-- A raw row already projected through a fully specified column mapping:
the values of `row[dateColumn]`, `row[descriptionColumn]` and
`row[amountColumn]`.  An absent description cell is modelled as `""` (both
are falsy, so the filter treats them identically). -/
structure RawRow where
  dateVal : String
  descVal : String
  amountVal : CellValue
deriving DecidableEq

/-- Embedding of the amount cleaning in `processDataWithMapping` (part_002
lines 371-376): for a string, remove every character that is not a digit,
`.` or `-` (the regex `/[^\d.-]/g`), then `Number.parseFloat(...) || 0`;
numbers pass through unchanged. -/
def cleanAmount : CellValue → ℚ
  | .str s => (parseFloatJS ⟨s.data.filter (fun c => c.isDigit || c == '.' || c == '-')⟩).getD 0
  | .num q => q

/-- The transaction built from the row at (zero-based) original position
`index` — the body of the `.map((row, index) => ...)` in
`processDataWithMapping` (part_002 lines 364-384).  `formatDate` can
throw, which aborts the whole mapping. -/
def convertRow (freeParse : String → Option ℤ) (index : ℕ) (row : RawRow) :
    Except Unit Transaction := do
  let fd ← formatDate freeParse row.dateVal
  pure { id := "tx-" ++ toString index, date := fd, description := row.descVal,
         amount := cleanAmount row.amountVal, category := "" }

/-- The filter predicate `tx.description && tx.amount !== 0` of
`processDataWithMapping` (part_002 line 385). -/
def keepTx (tx : Transaction) : Bool :=
  !(tx.description == "") && !(tx.amount == 0)

/-- Embedding of `processDataWithMapping` (part_002 lines 361-386): map
every row in original order to a transaction carrying its original index,
then drop the entries with a falsy description or an amount equal to 0. -/
def processDataWithMapping (freeParse : String → Option ℤ) (rows : List RawRow) :
    Except Unit (List Transaction) := do
  let txs ← rows.enum.mapM (fun p => convertRow freeParse p.1 p.2)
  pure (txs.filter keepTx)

/-! ## Category aggregator (src/unnamed/part_003, lines 379-402) -/

/-- Grouping key: `transaction.category || "Uncategorized"`. -/
def catKey (t : Transaction) : String :=
  if t.category = "" then "Uncategorized" else t.category

/-- One increment of the `stats` record: the first entry with this key is
incremented in place, otherwise a fresh entry is appended (insertion order
of string keys, as `Object.entries` later reports it). -/
def bump : List (String × ℕ × ℚ) → String → ℚ → List (String × ℕ × ℚ)
  | [], c, amt => [(c, 1, amt)]
  | (c', n, tot) :: rest, c, amt =>
    if c' = c then (c', n + 1, tot + amt) :: rest
    else (c', n, tot) :: bump rest c amt

/-- The `stats` record after the `transactions.forEach` loop of
`getCategoryStats` (part_003 lines 381-392), as an insertion-ordered
association list. -/
def accumStats (txs : List Transaction) : List (String × ℕ × ℚ) :=
  txs.foldl (fun st t => bump st (catKey t) t.amount) []

/-- The grand total `transactions.reduce((sum, t) => sum + t.amount, 0)`. -/
def sumAmounts (txs : List Transaction) : ℚ :=
  txs.foldl (fun s t => s + t.amount) 0

/-- Float division with its finiteness made explicit: `none` models the
non-finite JS results (`Infinity`, `-Infinity` or `NaN`) that `x / 0`
produces; for a non-zero divisor the exact quotient is returned. -/
def jsDiv (a b : ℚ) : Option ℚ :=
  if b = 0 then none else some (a / b)

/-- Embedding of the source's per-category stat object. `percentage` is
`none` when the float computation would be non-finite. -/
structure CategoryStat where
  category : String
  count : ℕ
  total : ℚ
  percentage : Option ℚ
deriving DecidableEq

/-- The sort order of `.sort((a, b) => b.total - a.total)`: `a` may come
before `b` exactly when the comparator is `≤ 0`.  ES2019 `Array.prototype.sort`
is a stable sort, modelled by `List.mergeSort`. -/
def statLE (a b : CategoryStat) : Bool := decide (b.total ≤ a.total)

/-- The unsorted stat list built by the `Object.entries(stats).map(...)`
step of `getCategoryStats` (part_003 lines 394-401): one stat per
accumulated category, with the percentage computed against the signed
grand total by an unguarded division. -/
def statsOf (txs : List Transaction) : List CategoryStat :=
  (accumStats txs).map (fun e =>
    { category := e.1, count := e.2.1, total := e.2.2,
      percentage := (jsDiv e.2.2 (sumAmounts txs)).map (fun q => q * 100) })

/-- Embedding of `getCategoryStats` (part_003 lines 379-402): accumulate
per-category counts and signed totals, compute each percentage against the
signed grand total (unguarded division), then sort by total descending
with a stable sort. -/
def getCategoryStats (txs : List Transaction) : List CategoryStat :=
  (statsOf txs).mergeSort statLE

/-! ## Predicates used by the verified properties -/

/-- Relates an input transaction to the corresponding output of the
adapter: every field except the category is preserved, and the category
has been filled in with a non-empty string. -/
def SameShape (a b : Transaction) : Prop :=
  b.id = a.id ∧ b.date = a.date ∧ b.description = a.description ∧
  b.amount = a.amount ∧ b.category ≠ ""

instance : ∀ a b, Decidable (SameShape a b) := fun _ _ => by
  unfold SameShape; infer_instance

/-- The failure modes of one batch's remote call, as `processBatchWithLLM`
observes them: the call threw, the response was not ok, or the parsed line
count differs from the batch's transaction count. -/
def remoteFailed (remote : String → RemoteOutcome) (batch : List Transaction) : Prop :=
  match remote (buildPrompt batch) with
  | .thrown => True
  | .respNotOk _ => True
  | .success content => (parseCategories content).length ≠ batch.length

/-! ## Generic helper lemmas -/

/-- If position `i` of a list satisfies `p`, then `find?` returns the value
at some position `j ≤ i` that satisfies `p`. -/
theorem find?_of_get (l : List α) (p : α → Bool) :
    ∀ (i : ℕ) (hi : i < l.length), p l[i] = true →
    ∃ (j : ℕ) (hj : j < l.length), j ≤ i ∧ p l[j] = true ∧ l.find? p = some l[j] := by
  induction l with
  | nil => intro i hi; exact absurd hi (by simp)
  | cons a t ih =>
    intro i hi hp
    cases ha : p a with
    | true =>
      exact ⟨0, by simp, Nat.zero_le _, by simpa using ha, by simp [List.find?, ha]⟩
    | false =>
      match i with
      | 0 => simp at hp; rw [hp] at ha; cases ha
      | i + 1 =>
        obtain ⟨j, hj, hji, hpj, hfind⟩ := ih i (by simpa using hi) (by simpa using hp)
        exact ⟨j + 1, by simpa using hj, by omega, by simpa using hpj,
          by simpa [List.find?, ha] using hfind⟩

/-! ## C3, C4, C5 — keyword classifier and vocabulary -/

/-- C3: the 16 category names of the keyword rule table are exactly the
first 16 entries, in order, of the 17-entry vocabulary enumerated in the
remote classifier's prompt, whose only extra entry is "Miscellaneous". -/
theorem vocabulary_in_sync :
    keywordCategories.map Prod.fst ++ ["Miscellaneous"] = promptCategories ∧
    keywordCategories.length = 16 ∧ promptCategories.length = 17 := by
  decide

/-- C5: for every description, the keyword classifier returns a category
name from its 16-entry rule table or "Uncategorized"; the result is never
empty (and the function is total, modelling that the source never throws). -/
theorem keyword_classifier_total (description : String) :
    (categorizeWithKeywords description ∈ keywordCategories.map Prod.fst ∨
      categorizeWithKeywords description = "Uncategorized") ∧
    categorizeWithKeywords description ≠ "" := by
  unfold categorizeWithKeywords
  cases h : keywordCategories.find? (matchesEntry (jsToLower description)) with
  | none => simp
  | some e =>
    have hmem := List.mem_of_find?_eq_some h
    have hne : ∀ p ∈ keywordCategories, p.1 ≠ "" := by decide
    exact ⟨Or.inl (List.mem_map_of_mem _ hmem), hne e hmem⟩

/-- C4: if the description matches the table entry at position `i`, the
classifier answers with the name of a matching entry at some position
`j ≤ i` (first category/keyword match in table order wins); in particular
a description containing both the "Shopping" keyword "amazon" and the
later-listed "Groceries" keywords "whole foods"/"market" resolves to
"Shopping". -/
theorem keyword_first_match_wins :
    (∀ (description : String) (i : ℕ) (hi : i < keywordCategories.length),
      matchesEntry (jsToLower description) keywordCategories[i] = true →
      ∃ (j : ℕ) (hj : j < keywordCategories.length), j ≤ i ∧
        matchesEntry (jsToLower description) keywordCategories[j] = true ∧
        categorizeWithKeywords description = keywordCategories[j].1) ∧
    categorizeWithKeywords "amazon whole foods market" = "Shopping" ∧
    matchesEntry (jsToLower "amazon whole foods market") keywordCategories[2] = true ∧
    keywordCategories[2].1 = "Groceries" := by
  refine ⟨?_, by decide, by decide, by decide⟩
  intro description i hi hp
  obtain ⟨j, hj, hji, hpj, hfind⟩ :=
    find?_of_get keywordCategories (matchesEntry (jsToLower description)) i hi hp
  exact ⟨j, hj, hji, hpj, by unfold categorizeWithKeywords; rw [hfind]⟩

/-- Witness for C4 at the concrete description "amazon whole foods market"
and the "Groceries" entry (index 2). -/
theorem keyword_first_match_wins_witness :
    ∃ (j : ℕ) (hj : j < keywordCategories.length), j ≤ 2 ∧
      matchesEntry (jsToLower "amazon whole foods market") keywordCategories[j] = true ∧
      categorizeWithKeywords "amazon whole foods market" = keywordCategories[j].1 :=
  keyword_first_match_wins.1 "amazon whole foods market" 2 (by decide) (by decide)

/-! ## C1, C2 — remote classifier adapter -/

/-- The keyword classifier never returns the empty string. -/
theorem categorize_ne_empty (description : String) : categorizeWithKeywords description ≠ "" := by
  unfold categorizeWithKeywords
  cases h : keywordCategories.find? (matchesEntry (jsToLower description)) with
  | none => simp
  | some e =>
    have hne : ∀ p ∈ keywordCategories, p.1 ≠ "" := by decide
    exact hne e (List.mem_of_find?_eq_some h)

/-- The keyword fallback keeps every field but the category and fills the
category with a non-empty string. -/
theorem sameShape_keywordFallback (t : Transaction) : SameShape t (keywordFallback t) :=
  ⟨rfl, rfl, rfl, rfl, categorize_ne_empty t.description⟩

/-- Forall₂ version of `sameShape_keywordFallback` over a whole batch. -/
theorem forall₂_map_keywordFallback (batch : List Transaction) :
    List.Forall₂ SameShape batch (batch.map keywordFallback) := by
  rw [List.forall₂_map_right_iff]
  exact (List.forall₂_same).2 (fun t _ => sameShape_keywordFallback t)

/-- `mapIdx` with a field-preserving function relates input and output. -/
theorem forall₂_mapIdx (l : List Transaction) (f : ℕ → Transaction → Transaction)
    (hf : ∀ i t, SameShape t (f i t)) : List.Forall₂ SameShape l (l.mapIdx f) := by
  induction l generalizing f with
  | nil => rw [List.mapIdx_nil]; exact List.Forall₂.nil
  | cons a t ih =>
    rw [List.mapIdx_cons, List.forall₂_cons]
    exact ⟨hf 0 a, ih _ (fun i t => hf (i + 1) t)⟩

/-- The `|| "Miscellaneous"` default can never produce an empty category. -/
theorem ifEmpty_ne (c : String) : (if c = "" then "Miscellaneous" else c) ≠ "" := by
  by_cases hc : c = "" <;> simp [hc]

/-- One batch of `processBatchWithLLM` preserves order, length and every
non-category field, and always fills the category with a non-empty string. -/
theorem processBatch_shape (remote : String → RemoteOutcome) (batch : List Transaction) :
    List.Forall₂ SameShape batch (processBatchWithLLM remote batch) := by
  unfold processBatchWithLLM
  cases remote (buildPrompt batch) with
  | thrown => exact forall₂_map_keywordFallback batch
  | respNotOk s => exact forall₂_map_keywordFallback batch
  | success content =>
    dsimp only
    by_cases h : (parseCategories content).length ≠ batch.length
    · rw [if_pos h]
      exact forall₂_map_keywordFallback batch
    · rw [if_neg h]
      apply forall₂_mapIdx
      intro i t
      exact ⟨rfl, rfl, rfl, rfl, ifEmpty_ne _⟩

/-- Forall₂ distributes over append. -/
theorem forall₂_append_of {R : α → β → Prop} :
    ∀ {l₁ l₂ : List α} {m₁ m₂ : List β},
    List.Forall₂ R l₁ m₁ → List.Forall₂ R l₂ m₂ → List.Forall₂ R (l₁ ++ l₂) (m₁ ++ m₂) := by
  intro l₁ l₂ m₁ m₂ h₁ h₂
  induction h₁ with
  | nil => simpa using h₂
  | cons hab _ ih => simpa using ⟨hab, ih⟩

/-- Forall₂ of Forall₂ flattens. -/
theorem forall₂_flatten {R : α → β → Prop} :
    ∀ {ls : List (List α)} {ms : List (List β)},
    List.Forall₂ (List.Forall₂ R) ls ms → List.Forall₂ R ls.flatten ms.flatten := by
  intro ls ms h
  induction h with
  | nil => simp [List.Forall₂.nil]
  | cons hab _ ih => simpa using forall₂_append_of hab ih

/-- Flattening the 10-element chunks gives back the original list. -/
theorem chunk10_flatten (l : List Transaction) : (chunk10 l).flatten = l := by
  induction l using chunk10.induct with
  | case1 => rw [chunk10]; simp
  | case2 l h ih => rw [chunk10]; simp [h, ih]

/-- C1: for every remote behavior and every transaction list with non-empty
descriptions, the adapter returns a list of the same length with the
transactions in the same order and every category filled in non-empty
(`SameShape`); and whenever a batch's remote call throws, returns a
non-success status, or yields a line count different from the batch size,
that whole batch gets exactly the keyword classifier's categories. -/
theorem adapter_total_and_fallback (remote : String → RemoteOutcome)
    (transactions : List Transaction)
    (hdesc : ∀ t ∈ transactions, t.description ≠ "") :
    (categorizeWithLLM remote transactions).length = transactions.length ∧
    List.Forall₂ SameShape transactions (categorizeWithLLM remote transactions) ∧
    ∀ batch : List Transaction, remoteFailed remote batch →
      processBatchWithLLM remote batch =
        batch.map (fun t => { t with category := categorizeWithKeywords t.description }) := by
  have hshape : List.Forall₂ SameShape transactions (categorizeWithLLM remote transactions) := by
    unfold categorizeWithLLM
    have h2 : List.Forall₂ (List.Forall₂ SameShape) (chunk10 transactions)
        ((chunk10 transactions).map (processBatchWithLLM remote)) := by
      rw [List.forall₂_map_right_iff]
      exact (List.forall₂_same).2 (fun batch _ => processBatch_shape remote batch)
    have := forall₂_flatten h2
    rwa [chunk10_flatten] at this
  refine ⟨(hshape.length_eq).symm, hshape, ?_⟩
  intro batch hfail
  unfold remoteFailed at hfail
  unfold processBatchWithLLM
  cases hr : remote (buildPrompt batch) with
  | thrown => rfl
  | respNotOk s => rfl
  | success content =>
    rw [hr] at hfail
    dsimp only
    rw [if_pos hfail]
    rfl

/-- Example transaction used by the concrete witnesses. -/
def uberTx : Transaction :=
  { id := "tx-0", date := "2024-01-01", description := "Uber Trip", amount := -12, category := "" }

/-- Witness for C1: a single transaction against a remote that always
throws. -/
theorem adapter_total_and_fallback_witness :
    (categorizeWithLLM (fun _ => RemoteOutcome.thrown) [uberTx]).length = [uberTx].length ∧
    List.Forall₂ SameShape [uberTx] (categorizeWithLLM (fun _ => RemoteOutcome.thrown) [uberTx]) ∧
    ∀ batch : List Transaction, remoteFailed (fun _ => RemoteOutcome.thrown) batch →
      processBatchWithLLM (fun _ => RemoteOutcome.thrown) batch =
        batch.map (fun t => { t with category := categorizeWithKeywords t.description }) :=
  adapter_total_and_fallback (fun _ => RemoteOutcome.thrown) [uberTx] (by decide)

/-- Every parsed category line is non-empty: blank lines are discarded
before the remaining lines are trimmed. -/
theorem parseCategories_ne_empty (content : String) :
    ∀ line ∈ parseCategories content, line ≠ "" := by
  intro line hline
  unfold parseCategories at hline
  obtain ⟨raw, hraw, rfl⟩ := List.mem_map.1 hline
  have := List.of_mem_filter hraw
  simpa using this

/-- With as many parsed lines as transactions (all of them non-empty), the
indexed assignment with its `|| "Miscellaneous"` default is just the
positional pairing of transactions with lines. -/
theorem mapIdx_assign_eq_zipWith :
    ∀ (batch : List Transaction) (cats : List String), cats.length = batch.length →
    (∀ c ∈ cats, c ≠ "") →
    batch.mapIdx (fun index t =>
      { t with category :=
          let c := cats.getD index ""
          if c = "" then "Miscellaneous" else c }) =
    batch.zipWith (fun t c => { t with category := c }) cats := by
  intro batch
  induction batch with
  | nil => intro cats _ _; rw [List.mapIdx_nil]; simp
  | cons a t ih =>
    intro cats hlen hne
    match cats with
    | [] => simp at hlen
    | c :: cs =>
      rw [List.mapIdx_cons, List.zipWith_cons_cons]
      have hc : c ≠ "" := hne c (by simp)
      have h1 : (let c' := (c :: cs).getD 0 ""; if c' = "" then "Miscellaneous" else c') = c := by
        simp [List.getD, hc]
      rw [h1]
      simp only [List.getD_cons_succ]
      rw [ih cs (by simpa using hlen) (fun x hx => hne x (by simp [hx]))]

/-- C2 (amended): if the remote call succeeds for a batch and the count of
non-blank trimmed lines equals the batch's transaction count, transaction
`i` receives trimmed line `i` as its category in original batch order; no
such line is empty after trimming, so the `"Miscellaneous"` default for
empty lines is never exercised. -/
theorem batch_success_alignment (remote : String → RemoteOutcome)
    (batch : List Transaction) (content : String)
    (hok : remote (buildPrompt batch) = RemoteOutcome.success content)
    (hlen : (parseCategories content).length = batch.length) :
    processBatchWithLLM remote batch =
      batch.zipWith (fun t c => { t with category := c }) (parseCategories content) ∧
    ∀ line ∈ parseCategories content, line ≠ "" := by
  refine ⟨?_, parseCategories_ne_empty content⟩
  unfold processBatchWithLLM
  rw [hok]
  dsimp only
  rw [if_neg (by simp [hlen])]
  exact mapIdx_assign_eq_zipWith batch (parseCategories content) hlen
    (parseCategories_ne_empty content)

/-- Example transaction used by the C2 concrete instances. -/
def coffeeTx : Transaction :=
  { id := "tx-1", date := "2024-01-01", description := "starbucks coffee", amount := -5,
    category := "" }

/-- Witness for C2 at a successful two-line response for a two-transaction
batch. -/
theorem batch_success_alignment_witness :
    processBatchWithLLM (fun _ => RemoteOutcome.success "Food & Dining\nTravel")
        [coffeeTx, uberTx] =
      List.zipWith (fun t c => { t with category := c }) [coffeeTx, uberTx]
        (parseCategories "Food & Dining\nTravel") ∧
    ∀ line ∈ parseCategories "Food & Dining\nTravel", line ≠ "" :=
  batch_success_alignment (fun _ => RemoteOutcome.success "Food & Dining\nTravel")
    [coffeeTx, uberTx] "Food & Dining\nTravel" rfl (by decide)

/-- C2 counterexample: a response consisting of a single line that is empty
after trimming, for a one-transaction batch.  The raw line count (1)
equals the batch's transaction count, and the claim then promises the
category `"Miscellaneous"` for that transaction; the code instead discards
the blank line, sees a count mismatch (0 ≠ 1), and keyword-categorizes the
batch, yielding `"Food & Dining"`. -/
theorem batch_blank_line_counterexample :
    (jsSplit " " (fun c => c == '\n')).length = [coffeeTx].length ∧
    jsTrim " " = "" ∧
    processBatchWithLLM (fun _ => RemoteOutcome.success " ") [coffeeTx] =
      [{ coffeeTx with category := "Food & Dining" }] ∧
    (processBatchWithLLM (fun _ => RemoteOutcome.success " ") [coffeeTx]).map
        Transaction.category ≠ ["Miscellaneous"] := by
  decide

/-! ## C6, C7 — row-to-transaction mapper -/

/-- A successful `mapM` in `Except` yields as many results as inputs. -/
theorem mapM_except_ok_length {α β : Type} (f : α → Except Unit β) :
    ∀ (l : List α) (out : List β), l.mapM f = Except.ok out → out.length = l.length := by
  intro l
  induction l with
  | nil =>
    intro out h
    simp only [List.mapM_nil, pure] at h
    cases h
    rfl
  | cons a t ih =>
    intro out h
    rw [List.mapM_cons] at h
    cases hfa : f a with
    | error e => rw [hfa] at h; cases h
    | ok b =>
      rw [hfa] at h
      cases hft : t.mapM f with
      | error e => rw [hft] at h; cases h
      | ok bs =>
        rw [hft] at h
        simp only [bind, Except.bind, pure, Except.pure] at h
        cases h
        simpa using ih bs hft

/-- Every output of a successful `mapM` in `Except` comes from some input. -/
theorem mapM_except_ok_mem {α β : Type} (f : α → Except Unit β) :
    ∀ (l : List α) (out : List β), l.mapM f = Except.ok out →
    ∀ b ∈ out, ∃ a ∈ l, f a = Except.ok b := by
  intro l
  induction l with
  | nil =>
    intro out h b hb
    simp only [List.mapM_nil, pure] at h
    cases h
    simp at hb
  | cons a t ih =>
    intro out h b hb
    rw [List.mapM_cons] at h
    cases hfa : f a with
    | error e => rw [hfa] at h; cases h
    | ok b0 =>
      rw [hfa] at h
      cases hft : t.mapM f with
      | error e => rw [hft] at h; cases h
      | ok bs =>
        rw [hft] at h
        simp only [bind, Except.bind, pure, Except.pure] at h
        cases h
        rcases List.mem_cons.1 hb with hb0 | hbs
        · exact ⟨a, by simp, by rw [hfa, hb0]⟩
        · obtain ⟨a', ha', hfa'⟩ := ih bs hft b hbs
          exact ⟨a', by simp [ha'], hfa'⟩

/-- Field values of a successfully converted row. -/
theorem convertRow_fields (freeParse : String → Option ℤ) (i : ℕ) (row : RawRow)
    (tx : Transaction) (h : convertRow freeParse i row = Except.ok tx) :
    tx.id = "tx-" ++ toString i ∧ tx.description = row.descVal ∧
    tx.amount = cleanAmount row.amountVal ∧ tx.category = "" := by
  unfold convertRow at h
  cases hfd : formatDate freeParse row.dateVal with
  | error e =>
    rw [hfd] at h
    simp only [bind, Except.bind] at h
    cases h
  | ok fd =>
    rw [hfd] at h
    simp only [bind, Except.bind, pure, Except.pure] at h
    cases h
    exact ⟨rfl, rfl, rfl, rfl⟩

/-- A non-empty string has positive length. -/
theorem str_pos_of_ne_empty (s : String) (h : s ≠ "") : 0 < s.length := by
  cases s with
  | mk data =>
    cases data with
    | nil => exact absurd rfl h
    | cons c cs => simp [String.length]

/-- On a successful run, `processDataWithMapping` returns the filtered
conversions of the enumerated rows. -/
theorem processDataWithMapping_ok (freeParse : String → Option ℤ) (rows : List RawRow)
    (res : List Transaction) (h : processDataWithMapping freeParse rows = Except.ok res) :
    ∃ txs : List Transaction,
      rows.enum.mapM (fun p => convertRow freeParse p.1 p.2) = Except.ok txs ∧
      res = txs.filter keepTx := by
  unfold processDataWithMapping at h
  cases hm : rows.enum.mapM (fun p => convertRow freeParse p.1 p.2) with
  | error e => rw [hm] at h; simp only [bind, Except.bind] at h; cases h
  | ok txs =>
    rw [hm] at h
    simp only [bind, Except.bind, pure, Except.pure] at h
    cases h
    exact ⟨txs, rfl, rfl⟩

/-- C6: whenever the mapper returns, every returned transaction has a
non-empty description and a non-zero amount, the output has at most as
many entries as the input has rows, and a row whose description is empty
or whose parsed amount is exactly 0 never contributes a transaction. -/
theorem mapper_invariants (freeParse : String → Option ℤ) (rows : List RawRow)
    (res : List Transaction) (h : processDataWithMapping freeParse rows = Except.ok res) :
    (∀ tx ∈ res, 0 < tx.description.length ∧ tx.amount ≠ 0) ∧
    res.length ≤ rows.length ∧
    (∀ (i : ℕ) (row : RawRow) (tx : Transaction),
      convertRow freeParse i row = Except.ok tx →
      (row.descVal = "" ∨ cleanAmount row.amountVal = 0) → tx ∉ res) := by
  obtain ⟨txs, hm, hres⟩ := processDataWithMapping_ok freeParse rows res h
  subst hres
  refine ⟨?_, ?_, ?_⟩
  · intro tx htx
    have hkeep := List.of_mem_filter htx
    unfold keepTx at hkeep
    simp only [Bool.and_eq_true, Bool.not_eq_true', beq_eq_false_iff_ne] at hkeep
    exact ⟨str_pos_of_ne_empty tx.description hkeep.1, hkeep.2⟩
  · calc (txs.filter keepTx).length ≤ txs.length := List.length_filter_le _ _
      _ = rows.enum.length := mapM_except_ok_length _ _ _ hm
      _ = rows.length := List.enum_length
  · intro i row tx hconv hbad htx
    have hkeep := List.of_mem_filter htx
    obtain ⟨-, hdesc, hamt, -⟩ := convertRow_fields freeParse i row tx hconv
    unfold keepTx at hkeep
    simp only [Bool.and_eq_true, Bool.not_eq_true', beq_eq_false_iff_ne] at hkeep
    rcases hbad with hb | hb
    · exact hkeep.1 (by rw [hdesc, hb])
    · exact hkeep.2 (by rw [hamt, hb])

/-- Example rows used by the mapper witnesses: the middle row has amount
exactly 0 and is dropped. -/
def gapRows : List RawRow :=
  [{ dateVal := "2024-01-02", descVal := "starbucks", amountVal := CellValue.num 5 },
   { dateVal := "2024-01-03", descVal := "zero row", amountVal := CellValue.num 0 },
   { dateVal := "2024-01-04", descVal := "uber", amountVal := CellValue.num 7 }]

/-- The transactions that `processDataWithMapping` produces from
`gapRows`. -/
def gapTxs : List Transaction :=
  [{ id := "tx-0", date := "2024-01-02", description := "starbucks",
     amount := 5, category := "" },
   { id := "tx-2", date := "2024-01-04", description := "uber",
     amount := 7, category := "" }]

/-- Witness for C6 at the concrete `gapRows` input. -/
theorem mapper_invariants_witness :
    (∀ tx ∈ gapTxs, 0 < tx.description.length ∧ tx.amount ≠ 0) ∧
    gapTxs.length ≤ gapRows.length ∧
    (∀ (i : ℕ) (row : RawRow) (tx : Transaction),
      convertRow (fun _ => none) i row = Except.ok tx →
      (row.descVal = "" ∨ cleanAmount row.amountVal = 0) → tx ∉ gapTxs) :=
  mapper_invariants (fun _ => none) gapRows gapTxs (by decide)

/-- C7: every returned transaction's id is `"tx-"` followed by the
zero-based position of its row in the original unfiltered input (the
transaction is exactly the conversion of that row), and ids are not
renumbered after filtering — on `gapRows` (whose middle row is dropped)
the surviving ids are the non-contiguous `["tx-0", "tx-2"]`. -/
theorem mapper_ids_from_original_index (freeParse : String → Option ℤ) (rows : List RawRow)
    (res : List Transaction) (h : processDataWithMapping freeParse rows = Except.ok res) :
    (∀ tx ∈ res, ∃ (i : ℕ) (row : RawRow), rows[i]? = some row ∧
      convertRow freeParse i row = Except.ok tx ∧ tx.id = "tx-" ++ toString i) ∧
    Except.map (List.map Transaction.id) (processDataWithMapping (fun _ => none) gapRows) =
      Except.ok ["tx-0", "tx-2"] := by
  refine ⟨?_, by decide⟩
  obtain ⟨txs, hm, hres⟩ := processDataWithMapping_ok freeParse rows res h
  subst hres
  intro tx htx
  have htxs := List.mem_of_mem_filter htx
  obtain ⟨p, hp, hconv⟩ := mapM_except_ok_mem _ _ _ hm tx htxs
  obtain ⟨i, row⟩ := p
  obtain ⟨hi, hrow⟩ := List.mem_enum hp
  refine ⟨i, row, ?_, hconv, (convertRow_fields freeParse i row tx hconv).1⟩
  rw [List.getElem?_eq_getElem hi, hrow]

/-- Witness for C7 at the concrete `gapRows` input. -/
theorem mapper_ids_from_original_index_witness :
    (∀ tx ∈ gapTxs, ∃ (i : ℕ) (row : RawRow), gapRows[i]? = some row ∧
      convertRow (fun _ => none) i row = Except.ok tx ∧ tx.id = "tx-" ++ toString i) ∧
    Except.map (List.map Transaction.id) (processDataWithMapping (fun _ => none) gapRows) =
      Except.ok ["tx-0", "tx-2"] :=
  mapper_ids_from_original_index (fun _ => none) gapRows gapTxs (by decide)

/-! ## C8 — date normalizer -/

/-- Characters produced by `digitChar` are decimal digits. -/
theorem digitChar_isDigit (n : ℤ) : (digitChar n).isDigit = true := by
  unfold digitChar
  have h1 : 0 ≤ n.emod 10 := Int.emod_nonneg n (by norm_num)
  have h2 : n.emod 10 < 10 := Int.emod_lt_of_pos n (by norm_num)
  interval_cases h : n.emod 10 <;> decide

/-- For years `0..9999` the ISO rendering has the canonical `YYYY-MM-DD`
shape: ten characters, digits everywhere except dashes at positions 4
and 7. -/
theorem isoDatePrefixOfCivil_canonical (y m d : ℤ) (h0 : 0 ≤ y) (h1 : y ≤ 9999) :
    isCanonicalIsoDate (isoDatePrefixOfCivil y m d) = true := by
  unfold isoDatePrefixOfCivil
  rw [if_pos ⟨h0, h1⟩]
  unfold isCanonicalIsoDate pad4 pad2
  simp [digitChar_isDigit]

/-- C8 (amended): for every date string that does not match the
`YYYY-MM-DD` prefix pattern and splits on `/`, `.` or `-` into exactly
three parts that `parseInt` parses as numbers, the normalizer interprets
part 1 as month, part 2 as day and part 3 as year (US convention), maps
two-digit years by `<50 → +2000`, `≥50 → +1900` (`adjustYear`), and — when
the constructed time value stays in the JS `Date` range — returns the ISO
rendering of the normalized civil date, which for four-digit years has the
canonical `YYYY-MM-DD` shape; in particular `"03/15/2024"` returns
`"2024-03-15"`. -/
theorem date_three_part_us_convention (freeParse : String → Option ℤ)
    (s p1 p2 p3 : String) (month day yearRaw : ℤ)
    (hempty : s ≠ "") (hiso : isoShapeTest s = false)
    (hsplit : jsSplit s dateSep = [p1, p2, p3])
    (hm : parseIntJS p1 = some month) (hd : parseIntJS p2 = some day)
    (hy : parseIntJS p3 = some yearRaw)
    (hlo : -100000000 ≤ jsMakeDay (adjustYear yearRaw) (month - 1) day)
    (hhi : jsMakeDay (adjustYear yearRaw) (month - 1) day ≤ 100000000) :
    formatDate freeParse s =
      Except.ok (isoDatePrefixOfCivil
        (civilFromDays (jsMakeDay (adjustYear yearRaw) (month - 1) day)).1
        (civilFromDays (jsMakeDay (adjustYear yearRaw) (month - 1) day)).2.1
        (civilFromDays (jsMakeDay (adjustYear yearRaw) (month - 1) day)).2.2) ∧
    (0 ≤ (civilFromDays (jsMakeDay (adjustYear yearRaw) (month - 1) day)).1 →
      (civilFromDays (jsMakeDay (adjustYear yearRaw) (month - 1) day)).1 ≤ 9999 →
      isCanonicalIsoDate (isoDatePrefixOfCivil
        (civilFromDays (jsMakeDay (adjustYear yearRaw) (month - 1) day)).1
        (civilFromDays (jsMakeDay (adjustYear yearRaw) (month - 1) day)).2.1
        (civilFromDays (jsMakeDay (adjustYear yearRaw) (month - 1) day)).2.2) = true) ∧
    formatDate (fun _ => none) "03/15/2024" = Except.ok "2024-03-15" := by
  refine ⟨?_, fun h0 h1 => isoDatePrefixOfCivil_canonical _ _ _ h0 h1, by decide⟩
  unfold formatDate
  rw [if_neg hempty, if_neg (by simp [hiso]), hsplit]
  dsimp only
  rw [hm, hd, hy]
  dsimp only
  rw [if_neg (by omega)]

/-- Witness for C8 at the concrete input `"03/15/2024"`. -/
theorem date_three_part_us_convention_witness :
    formatDate (fun _ => none) "03/15/2024" =
      Except.ok (isoDatePrefixOfCivil
        (civilFromDays (jsMakeDay (adjustYear 2024) (3 - 1) 15)).1
        (civilFromDays (jsMakeDay (adjustYear 2024) (3 - 1) 15)).2.1
        (civilFromDays (jsMakeDay (adjustYear 2024) (3 - 1) 15)).2.2) ∧
    (0 ≤ (civilFromDays (jsMakeDay (adjustYear 2024) (3 - 1) 15)).1 →
      (civilFromDays (jsMakeDay (adjustYear 2024) (3 - 1) 15)).1 ≤ 9999 →
      isCanonicalIsoDate (isoDatePrefixOfCivil
        (civilFromDays (jsMakeDay (adjustYear 2024) (3 - 1) 15)).1
        (civilFromDays (jsMakeDay (adjustYear 2024) (3 - 1) 15)).2.1
        (civilFromDays (jsMakeDay (adjustYear 2024) (3 - 1) 15)).2.2) = true) ∧
    formatDate (fun _ => none) "03/15/2024" = Except.ok "2024-03-15" :=
  date_three_part_us_convention (fun _ => none) "03/15/2024" "03" "15" "2024"
    3 15 2024 (by decide) (by decide) (by decide) (by decide) (by decide) (by decide)
    (by decide) (by decide)

/-- C8 counterexample: `"a/b/c"` does not match the ISO prefix pattern and
splits into exactly three parts, but none of them parses as a number; the
constructed `Date` is invalid and `toISOString()` throws, so the
normalizer raises instead of returning a canonical `YYYY-MM-DD` form. -/
theorem date_nonnumeric_counterexample :
    isoShapeTest "a/b/c" = false ∧
    jsSplit "a/b/c" dateSep = ["a", "b", "c"] ∧
    parseIntJS "a" = none ∧
    formatDate (fun _ => none) "a/b/c" = Except.error () := by
  decide

/-! ## C9, C10 — category aggregator -/

/-- Keys of `bump`: an existing key leaves the key list unchanged, a new
key is appended at the end. -/
theorem bump_keys (c : String) (amt : ℚ) :
    ∀ st : List (String × ℕ × ℚ),
    (bump st c amt).map (fun e => e.1) =
      if c ∈ st.map (fun e => e.1) then st.map (fun e => e.1)
      else st.map (fun e => e.1) ++ [c] := by
  intro st
  induction st with
  | nil => simp [bump]
  | cons e rest ih =>
    obtain ⟨c', n, tot⟩ := e
    by_cases hc : c' = c
    · subst hc
      simp [bump]
    · have hmem : (c ∈ c' :: rest.map (fun e => e.1)) ↔ c ∈ rest.map (fun e => e.1) := by
        simp [Ne.symm hc]
      by_cases hr : c ∈ rest.map (fun e => e.1)
      · simp only [bump, if_neg hc, List.map_cons, hmem, if_pos hr] at ih ⊢
        rw [ih]
      · simp only [bump, if_neg hc, List.map_cons, hmem, if_neg hr] at ih ⊢
        rw [ih]
        simp

/-- `bump` increases the total transaction count by exactly one. -/
theorem bump_counts (c : String) (amt : ℚ) :
    ∀ st : List (String × ℕ × ℚ),
    ((bump st c amt).map (fun e => e.2.1)).sum = ((st.map (fun e => e.2.1)).sum) + 1 := by
  intro st
  induction st with
  | nil => simp [bump]
  | cons e rest ih =>
    obtain ⟨c', n, tot⟩ := e
    by_cases hc : c' = c
    · subst hc
      simp [bump]
      omega
    · simp [bump, hc, ih]
      omega

/-- Accumulating any transaction list over any starting record adds one
count per transaction. -/
theorem accum_counts (txs : List Transaction) :
    ∀ st : List (String × ℕ × ℚ),
    (((txs.foldl (fun st t => bump st (catKey t) t.amount) st)).map (fun e => e.2.1)).sum =
      ((st.map (fun e => e.2.1)).sum) + txs.length := by
  induction txs with
  | nil => intro st; simp
  | cons t ts ih =>
    intro st
    rw [List.foldl_cons, ih (bump st (catKey t) t.amount), bump_counts]
    simp
    omega

/-- The per-category counts of the accumulated record sum to the number of
transactions. -/
theorem accumStats_counts (txs : List Transaction) :
    ((accumStats txs).map (fun e => e.2.1)).sum = txs.length := by
  have := accum_counts txs []
  simpa [accumStats] using this

/-- Folding the remaining transactions preserves the key invariant: the
record's keys are exactly the categories seen so far, ordered by first
occurrence (strictly increasing `indexOf` in the processed category
list). -/
theorem accum_key_order (rest : List Transaction) :
    ∀ (st : List (String × ℕ × ℚ)) (pm : List String),
    (∀ c, c ∈ st.map (fun e => e.1) ↔ c ∈ pm) →
    (st.map (fun e => e.1)).Pairwise (fun c1 c2 => pm.indexOf c1 < pm.indexOf c2) →
    (∀ c, c ∈ (rest.foldl (fun st t => bump st (catKey t) t.amount) st).map (fun e => e.1) ↔
        c ∈ pm ++ rest.map catKey) ∧
    ((rest.foldl (fun st t => bump st (catKey t) t.amount) st).map (fun e => e.1)).Pairwise
      (fun c1 c2 => (pm ++ rest.map catKey).indexOf c1 < (pm ++ rest.map catKey).indexOf c2) := by
  induction rest with
  | nil =>
    intro st pm hmem hpw
    constructor
    · simpa using hmem
    · simpa using hpw
  | cons t ts ih =>
    intro st pm hmem hpw
    rw [List.foldl_cons]
    have hkeys := bump_keys (catKey t) t.amount st
    have step_mem : ∀ c, c ∈ (bump st (catKey t) t.amount).map (fun e => e.1) ↔
        c ∈ pm ++ [catKey t] := by
      intro c
      rw [hkeys]
      by_cases hk : catKey t ∈ st.map (fun e => e.1)
      · rw [if_pos hk]
        have hkpm : catKey t ∈ pm := (hmem _).1 hk
        constructor
        · intro hcs; exact List.mem_append_left _ ((hmem c).1 hcs)
        · intro hc
          rcases List.mem_append.1 hc with h | h
          · exact (hmem c).2 h
          · simp at h; subst h; exact hk
      · rw [if_neg hk]
        constructor
        · intro hc
          rcases List.mem_append.1 hc with h | h
          · exact List.mem_append_left _ ((hmem c).1 h)
          · exact List.mem_append_right _ h
        · intro hc
          rcases List.mem_append.1 hc with h | h
          · exact List.mem_append_left _ ((hmem c).2 h)
          · exact List.mem_append_right _ h
    have step_pw : ((bump st (catKey t) t.amount).map (fun e => e.1)).Pairwise
        (fun c1 c2 => (pm ++ [catKey t]).indexOf c1 < (pm ++ [catKey t]).indexOf c2) := by
      rw [hkeys]
      by_cases hk : catKey t ∈ st.map (fun e => e.1)
      · rw [if_pos hk]
        refine hpw.imp_of_mem (fun {a b} ha hb hab => ?_)
        rw [List.indexOf_append_of_mem ((hmem a).1 ha),
          List.indexOf_append_of_mem ((hmem b).1 hb)]
        exact hab
      · rw [if_neg hk]
        rw [List.pairwise_append]
        refine ⟨hpw.imp_of_mem (fun {a b} ha hb hab => ?_), by simp, ?_⟩
        · rw [List.indexOf_append_of_mem ((hmem a).1 ha),
            List.indexOf_append_of_mem ((hmem b).1 hb)]
          exact hab
        · intro a ha b hb
          simp only [List.mem_singleton] at hb
          subst hb
          have hapm : a ∈ pm := (hmem a).1 ha
          have hknpm : catKey t ∉ pm := fun hc => hk ((hmem _).2 hc)
          rw [List.indexOf_append_of_mem hapm, List.indexOf_append_of_not_mem hknpm]
          have h1 := List.indexOf_lt_length.2 hapm
          have h2 : List.indexOf (catKey t) [catKey t] = 0 := by
            rw [List.indexOf_cons]
            simp
          omega
    have := ih (bump st (catKey t) t.amount) (pm ++ [catKey t]) step_mem step_pw
    simpa [List.append_assoc] using this

/-- The keys of the accumulated record are ordered by first occurrence of
the category in the transaction list. -/
theorem accumStats_key_order (txs : List Transaction) :
    ((accumStats txs).map (fun e => e.1)).Pairwise
      (fun c1 c2 => (txs.map catKey).indexOf c1 < (txs.map catKey).indexOf c2) := by
  have := (accum_key_order txs [] [] (by simp) (by simp)).2
  simpa [accumStats] using this

/-- Two distinct members of a list form a two-element sublist in one order
or the other. -/
theorem pair_sublist_of_mem {α : Type} {a b : α} :
    ∀ {l : List α}, a ∈ l → b ∈ l → a ≠ b → [a, b].Sublist l ∨ [b, a].Sublist l := by
  intro l
  induction l with
  | nil => intro ha; simp at ha
  | cons x t ih =>
    intro ha hb hne
    rcases List.mem_cons.1 ha with hax | hat
    · subst hax
      have hbt : b ∈ t := by
        rcases List.mem_cons.1 hb with hbx | hbt
        · exact absurd hbx.symm hne
        · exact hbt
      exact Or.inl ((List.singleton_sublist.2 hbt).cons₂ a)
    · rcases List.mem_cons.1 hb with hbx | hbt
      · subst hbx
        exact Or.inr ((List.singleton_sublist.2 hat).cons₂ b)
      · rcases ih hat hbt hne with h | h
        · exact Or.inl (h.cons x)
        · exact Or.inr (h.cons x)

/-- In a duplicate-free list, a two-element sublist determines the strict
order of the two indices. -/
theorem indexOf_lt_of_pair_sublist {α : Type} [DecidableEq α] {a b : α} :
    ∀ {l : List α}, l.Nodup → [a, b].Sublist l → l.indexOf a < l.indexOf b := by
  intro l
  induction l with
  | nil => intro _ h; cases h.length_le
  | cons x t ih =>
    intro hnd hsub
    have hat : a ∈ x :: t := hsub.mem (by simp)
    have hbt : b ∈ x :: t := hsub.mem (by simp)
    rcases List.sublist_cons_iff.1 hsub with hsub' | ⟨r, hr, hrsub⟩
    · -- [a, b] <+ t
      have ha : a ∈ t := hsub'.mem (by simp)
      have hb : b ∈ t := hsub'.mem (by simp)
      have hxa : x ≠ a := fun h => (List.nodup_cons.1 hnd).1 (h ▸ ha)
      have hxb : x ≠ b := fun h => (List.nodup_cons.1 hnd).1 (h ▸ hb)
      have e1 : (x == a) = false := beq_eq_false_iff_ne.2 hxa
      have e2 : (x == b) = false := beq_eq_false_iff_ne.2 hxb
      rw [List.indexOf_cons, List.indexOf_cons, e1, e2]
      simp only [cond_false]
      have := ih (List.nodup_cons.1 hnd).2 hsub'
      omega
    · -- here x = a and the tail sublist is [b] <+ t
      cases hr
      have hb : b ∈ t := hrsub.mem (by simp)
      have hab : a ≠ b := fun h => (List.nodup_cons.1 hnd).1 (h ▸ hb)
      have e1 : (a == a) = true := beq_self_eq_true a
      have e2 : (a == b) = false := beq_eq_false_iff_ne.2 hab
      rw [List.indexOf_cons, List.indexOf_cons, e1, e2]
      simp only [cond_true, cond_false]
      omega

/-- The comparator order `statLE` is transitive. -/
theorem statLE_trans (a b c : CategoryStat) (h1 : statLE a b = true) (h2 : statLE b c = true) :
    statLE a c = true := by
  simp only [statLE, decide_eq_true_eq] at h1 h2 ⊢
  exact le_trans h2 h1

/-- The comparator order `statLE` is total. -/
theorem statLE_total (a b : CategoryStat) : (statLE a b || statLE b a) = true := by
  simp only [statLE, Bool.or_eq_true, decide_eq_true_eq]
  exact le_total b.total a.total

/-- The unsorted stats are ordered by first occurrence of their category in
the input. -/
theorem statsOf_key_order (txs : List Transaction) :
    (statsOf txs).Pairwise (fun s1 s2 =>
      (txs.map catKey).indexOf s1.category < (txs.map catKey).indexOf s2.category) := by
  rw [statsOf, List.pairwise_map]
  have := accumStats_key_order txs
  rw [List.pairwise_map] at this
  exact this

/-- The unsorted stats contain no duplicate entry (their categories are
pairwise distinct). -/
theorem statsOf_nodup (txs : List Transaction) : (statsOf txs).Nodup :=
  (statsOf_key_order txs).imp (fun hab heq => absurd (heq ▸ hab) (lt_irrefl _))

/-- C9: the aggregator's per-category counts sum to the number of input
transactions; its output is sorted non-increasingly by total; and two
stats with equal totals appear in the order of the first occurrence of
their categories in the input (stable ties). -/
theorem aggregator_sorted_and_counts (txs : List Transaction) :
    ((getCategoryStats txs).map (fun s => s.count)).sum = txs.length ∧
    (getCategoryStats txs).Pairwise (fun a b => b.total ≤ a.total) ∧
    (∀ s1 s2 : CategoryStat, [s1, s2].Sublist (getCategoryStats txs) → s1.total = s2.total →
      (txs.map catKey).indexOf s1.category < (txs.map catKey).indexOf s2.category) := by
  have hgc : getCategoryStats txs = (statsOf txs).mergeSort statLE := rfl
  have hperm : List.Perm ((statsOf txs).mergeSort statLE) (statsOf txs) :=
    List.mergeSort_perm (statsOf txs) statLE
  have hnodup : ((statsOf txs).mergeSort statLE).Nodup :=
    hperm.symm.nodup (statsOf_nodup txs)
  refine ⟨?_, ?_, ?_⟩
  · rw [hgc]
    have h1 : List.Perm (((statsOf txs).mergeSort statLE).map (fun s => s.count))
        ((statsOf txs).map (fun s => s.count)) := hperm.map _
    rw [h1.sum_eq, statsOf, List.map_map]
    exact accumStats_counts txs
  · rw [hgc]
    exact (List.sorted_mergeSort statLE_trans statLE_total (statsOf txs)).imp
      (fun h => by simpa [statLE, decide_eq_true_eq] using h)
  · intro s1 s2 hsub heq
    rw [hgc] at hsub
    have hs1m : s1 ∈ statsOf txs := (hperm.mem_iff).1 (hsub.mem (by simp))
    have hs2m : s2 ∈ statsOf txs := (hperm.mem_iff).1 (hsub.mem (by simp))
    have hne : s1 ≠ s2 := by
      intro h
      subst h
      exact absurd (indexOf_lt_of_pair_sublist hnodup hsub) (lt_irrefl _)
    rcases pair_sublist_of_mem hs1m hs2m hne with h12 | h21
    · have := List.Pairwise.sublist h12 (statsOf_key_order txs)
      exact (List.pairwise_cons.1 this).1 s2 (by simp)
    · have hle : statLE s2 s1 = true := by
        simp [statLE, heq]
      have h21' : [s2, s1].Sublist ((statsOf txs).mergeSort statLE) :=
        List.pair_sublist_mergeSort statLE_trans statLE_total hle h21
      have i1 := indexOf_lt_of_pair_sublist hnodup hsub
      have i2 := indexOf_lt_of_pair_sublist hnodup h21'
      omega

/-- Transactions used by the aggregator witnesses: three categories with
first-occurrence order C, A, B, totals 100, 50, 50 (a tie between A
and B). -/
def tieTxs : List Transaction :=
  [{ id := "tx-0", date := "", description := "c", amount := 100, category := "C" },
   { id := "tx-1", date := "", description := "a", amount := 50, category := "A" },
   { id := "tx-2", date := "", description := "b", amount := 50, category := "B" }]

/-- Witness for C9 at the concrete input `tieTxs`. -/
theorem aggregator_sorted_and_counts_witness :
    ((getCategoryStats tieTxs).map (fun s => s.count)).sum = tieTxs.length ∧
    (getCategoryStats tieTxs).Pairwise (fun a b => b.total ≤ a.total) ∧
    (∀ s1 s2 : CategoryStat, [s1, s2].Sublist (getCategoryStats tieTxs) → s1.total = s2.total →
      (tieTxs.map catKey).indexOf s1.category < (tieTxs.map catKey).indexOf s2.category) :=
  aggregator_sorted_and_counts tieTxs

/-- Transactions with non-zero amounts whose signed grand total is zero. -/
def zeroSumTxs : List Transaction :=
  [{ id := "tx-0", date := "2024-01-01", description := "alpha", amount := 100, category := "A" },
   { id := "tx-1", date := "2024-01-01", description := "beta", amount := -100, category := "B" }]

/-- C10: the percentage computation divides by the signed sum of all
amounts without a guard: there is a non-empty transaction list with every
amount non-zero (amounts 100 and -100) whose amounts sum to zero, for
which the aggregator emits a non-empty stat list in which every percentage
is non-finite (modelled as `none`). -/
theorem aggregator_percentage_nonfinite :
    ∃ txs : List Transaction, txs ≠ [] ∧ (∀ t ∈ txs, t.amount ≠ 0) ∧
      sumAmounts txs = 0 ∧ getCategoryStats txs ≠ [] ∧
      ∀ s ∈ getCategoryStats txs, s.percentage = none := by
  have hsum : sumAmounts zeroSumTxs = 0 := by
    norm_num [sumAmounts, zeroSumTxs, List.foldl]
  have haccum : accumStats zeroSumTxs =
      [("A", 1, (100 : ℚ)), ("B", 1, (-100 : ℚ))] := by decide
  refine ⟨zeroSumTxs, by decide, by decide, hsum, ?_, ?_⟩
  · intro h
    have hlen : (getCategoryStats zeroSumTxs).length = 2 := by
      rw [getCategoryStats, List.length_mergeSort, statsOf, List.length_map, haccum]
      rfl
    rw [h] at hlen
    simp at hlen
  · intro s hs
    rw [getCategoryStats, List.mem_mergeSort, statsOf] at hs
    obtain ⟨e, he, rfl⟩ := List.mem_map.1 hs
    simp only
    rw [hsum]
    rfl

end FinWise
